import Mathlib

/-!
Shallow embedding of the BetterSpaceTools isochrone core.

The embedding translates, from the TypeScript source:
  * `calculateDijkstra` and `generateHull` (the bounded shortest-path search
    and the reachability hull generator);
  * the graph-building portion of `fetchRoadNetwork` together with the
    haversine helper `getDistance` (the HTTP transport to the Overpass API is
    an external collaborator and is not modelled: the embedding consumes the
    already-fetched raw element list);
  * the radius computation and the post-fetch pipeline of the orchestrator
    `calculateIsochrone`.

JS `Map` objects are modelled as association lists in insertion order
(`Map.set` on an existing key updates the value in place, on a fresh key it
appends at the end; iteration is in insertion order).  JS numbers are
modelled exactly: the search and the hull guard are stated generically over
a linear ordered commutative ring (their arithmetic is addition, comparison
and ring operations only) and evaluated on concrete integer-weighted
graphs, the radius formula is stated over `ℚ`, and the trigonometric
distance computation of the graph builder is stated over `ℝ`.  The unbounded
`while (pq.length > 0)` loop of the search is modelled with explicit fuel;
theorems either hold for every fuel or exhibit a run in which the queue is
exhausted within the given fuel.
-/

set_option linter.unusedVariables false

namespace BST

/-- JS `Map.set`: replace the value of an existing key in place, otherwise
append the new binding at the end (insertion order preserved). -/
def mapSet {β : Type} (m : List (String × β)) (k : String) (v : β) :
    List (String × β) :=
  match m with
  | [] => [(k, v)]
  | (k', v') :: rest =>
    if k' = k then (k, v) :: rest else (k', v') :: mapSet rest k v

/-- A looked-up binding is a member of the association list. -/
theorem lookup_mem {β : Type} :
    ∀ {l : List (String × β)} {k : String} {v : β},
      l.lookup k = some v → (k, v) ∈ l := by
  intro l
  induction l with
  | nil => intro k v h; simp [List.lookup] at h
  | cons p rest ih =>
    intro k v h
    rw [List.lookup] at h
    by_cases hk : k = p.1
    · simp [hk] at h
      cases p
      simp_all
    · have : (k == p.1) = false := beq_eq_false_iff_ne.mpr hk
      rw [this] at h
      exact List.mem_cons_of_mem _ (ih h)

/-- Source `types.ts` `TransportMode`. -/
inductive TransportMode where
  | walking
  | cycling
  | driving
deriving DecidableEq, Repr

/-- Source `constants.ts` `TRANSPORT_SPEEDS` (km/h). -/
def TRANSPORT_SPEEDS : TransportMode → ℕ
  | .walking => 5
  | .cycling => 15
  | .driving => 40

variable {α : Type} [LinearOrderedCommRing α]

/-- Source `types.ts` `Node`. -/
structure Node (α : Type) where
  id : String
  lat : α
  lon : α
deriving DecidableEq, Repr

/-- Source `types.ts` `Edge` (weight in seconds). -/
structure Edge (α : Type) where
  source : String
  target : String
  weight : α
deriving DecidableEq, Repr

/-- Source `types.ts` `GraphData`: both maps in insertion order. -/
structure GraphData (α : Type) where
  nodes : List (String × Node α)
  adjacency : List (String × List (Edge α))
deriving DecidableEq, Repr

/-- The nearest-node scan at the top of `calculateDijkstra`: fold over
`graph.nodes` in insertion order carrying the best `(id, squaredDistance)`
pair; the JS `minDist` starts at `Infinity`, modelled by the `none` state,
and the comparison is strict (`d < minDist`), so the first minimiser wins. -/
def findStartNode (nodes : List (String × Node α)) (slat slng : α) :
    Option String :=
  (nodes.foldl
    (fun acc p =>
      let d := (p.2.lat - slat) ^ 2 + (p.2.lon - slng) ^ 2
      match acc with
      | none => some (p.1, d)
      | some (bid, bd) => if d < bd then some (p.1, d) else some (bid, bd))
    none).map Prod.fst

/-- Stable insertion into a queue sorted by ascending first component
(strictly smaller keys stay in front; an inserted element goes before
later-sorted elements with an equal key, matching the stable JS
`Array.prototype.sort` with comparator `a[0] - b[0]`). -/
def insertPQ (x : α × String) : List (α × String) → List (α × String)
  | [] => [x]
  | y :: ys => if y.1 < x.1 then y :: insertPQ x ys else x :: y :: ys

/-- The in-place `pq.sort((a, b) => a[0] - b[0])` of `calculateDijkstra`. -/
def sortPQ : List (α × String) → List (α × String)
  | [] => []
  | x :: xs => insertPQ x (sortPQ xs)

theorem mem_insertPQ {x y : α × String} {l : List (α × String)} :
    y ∈ insertPQ x l ↔ y = x ∨ y ∈ l := by
  induction l with
  | nil => simp [insertPQ]
  | cons z zs ih =>
    rw [insertPQ]
    by_cases h : z.1 < x.1
    · rw [if_pos h]; simp [ih]; tauto
    · rw [if_neg h]; simp

theorem mem_sortPQ {y : α × String} {l : List (α × String)} :
    y ∈ sortPQ l ↔ y ∈ l := by
  induction l with
  | nil => simp [sortPQ]
  | cons z zs ih => rw [sortPQ, mem_insertPQ]; simp [ih]

/-- The mutable state of the `while` loop of `calculateDijkstra`:
the priority queue (`pq`), the tentative-distance map (`distances`) and the
accumulated `reachableNodes` list. -/
structure DState (α : Type) where
  pq : List (α × String)
  dist : List (String × α)
  reachable : List (Node α)
deriving DecidableEq, Repr

/-- The inner `for (const edge of neighbors)` relaxation loop of
`calculateDijkstra`: for each edge, if the target has no tentative distance
or the new distance is strictly smaller, record it and push `(newDist,
target)` at the end of the queue.  Returns the updated distance map and
queue. -/
def relaxAll (d : α) :
    List (Edge α) → List (String × α) → List (α × String) →
      List (String × α) × List (α × String)
  | [], dist, pq => (dist, pq)
  | e :: rest, dist, pq =>
    let nd := d + e.weight
    match dist.lookup e.target with
    | none => relaxAll d rest (mapSet dist e.target nd) (pq ++ [(nd, e.target)])
    | some cur =>
      if nd < cur then
        relaxAll d rest (mapSet dist e.target nd) (pq ++ [(nd, e.target)])
      else relaxAll d rest dist pq

/-- The `while (pq.length > 0)` loop of `calculateDijkstra`, with explicit
fuel.  Each iteration sorts the queue, shifts the least entry `(d, uId)`,
skips it when `d > maxTimeSeconds` (the post-pop `continue` of the source —
there is no finalized-node set), otherwise appends the popped node to
`reachableNodes` and relaxes its neighbors. -/
def dijkstraLoop (g : GraphData α) (maxT : α) : ℕ → DState α → DState α
  | 0, s => s
  | fuel + 1, s =>
    match sortPQ s.pq with
    | [] => s
    | (d, u) :: rest =>
      if maxT < d then dijkstraLoop g maxT fuel ⟨rest, s.dist, s.reachable⟩
      else
        let reach :=
          match g.nodes.lookup u with
          | some n => s.reachable ++ [n]
          | none => s.reachable
        let nbrs := (g.adjacency.lookup u).getD []
        let dp := relaxAll d nbrs s.dist rest
        dijkstraLoop g maxT fuel ⟨dp.2, dp.1, reach⟩

/-- Function `calculateDijkstra` of the source: resolve the nearest start node
(empty graph → `[]`), then run the queue loop from `pq = [[0, startNodeId]]`
and `distances = {startNodeId: 0}` and return `reachableNodes`. -/
def calculateDijkstra (g : GraphData α) (slat slng maxT : α) (fuel : ℕ) :
    List (Node α) :=
  match findStartNode g.nodes slat slng with
  | none => []
  | some s0 => (dijkstraLoop g maxT fuel ⟨[(0, s0)], [(s0, 0)], []⟩).reachable

/-- Cross product of the vectors `q - p` and `r - p`; zero exactly when the
three points are collinear. -/
def cross (p q r : α × α) : α :=
  (q.1 - p.1) * (r.2 - p.2) - (q.2 - p.2) * (r.1 - p.1)

/-- Every triple of points drawn from the list is collinear (so the set spans
no area). -/
def allCollinear (ps : List (α × α)) : Bool :=
  ps.all fun p => ps.all fun q => ps.all fun r => decide (cross p q r = 0)

/-- Modelled from the spec: the external `turf.concave` hull primitive of the
`@turf/turf` library (not part of this repository).  Per the spec, a
degenerate point configuration — all points collinear, which subsumes fewer
than 3 distinct points — cannot form an area and yields no polygon; otherwise
the boundary polygon over the distinct points is produced.  The maximum-edge
"tightness" parameter shapes the boundary but not its existence in this
model, so it is carried unused. -/
def turfConcave (ps : List (α × α)) (maxEdge : ℚ) : Option (List (α × α)) :=
  if allCollinear ps then none else some ps.dedup

/-- Modelled from the spec: the external `turf.convex` hull primitive (not
part of this repository).  A convex hull over at least 3 non-collinear points
always succeeds; an all-collinear (or fewer than 3 distinct) configuration
yields no polygon. -/
def turfConvex (ps : List (α × α)) : Option (List (α × α)) :=
  if allCollinear ps then none else some ps.dedup

/-- Function `generateHull` of the source: fewer than 3 input entries → `null`;
otherwise map nodes to `[lon, lat]` points, try the concave hull with the
fixed constant `maxEdge: 0.1` (the `maxTimeSeconds` argument is never read),
and fall back to the convex hull when the concave hull yields nothing (the
`try/catch` of the source likewise lands in the convex fallback). -/
def generateHull (nodes : List (Node α)) (maxTimeSeconds : α) :
    Option (List (α × α)) :=
  if nodes.length < 3 then none
  else
    let points := nodes.map fun n => (n.lon, n.lat)
    match turfConcave points 0.1 with
    | some hull => some hull
    | none => turfConvex points

/-- Raw Overpass elements as consumed by the graph-building part of
`fetchRoadNetwork`: point elements carry id and coordinates, way elements an
ordered point-id sequence (`el.nodes`). -/
inductive RawElement where
  | node (id : String) (lat lon : ℝ)
  | way (nodeIds : List String)

/-- The `Math.atan2(y, x)` of JS, as the argument of the complex number
`x + y*i` (both conventions value in `(-π, π]` with `atan2 0 0 = 0`). -/
noncomputable def atan2 (y x : ℝ) : ℝ :=
  Complex.arg ⟨x, y⟩

/-- Function `getDistance` of the source: haversine great-circle distance in meters
between two latitude/longitude pairs on a sphere of radius 6371 km. -/
noncomputable def getDistance (lat1 lon1 lat2 lon2 : ℝ) : ℝ :=
  let R : ℝ := 6371e3
  let phi1 := lat1 * Real.pi / 180
  let phi2 := lat2 * Real.pi / 180
  let dphi := (lat2 - lat1) * Real.pi / 180
  let dlam := (lon2 - lon1) * Real.pi / 180
  let a := Real.sin (dphi / 2) * Real.sin (dphi / 2) +
    Real.cos phi1 * Real.cos phi2 * Real.sin (dlam / 2) * Real.sin (dlam / 2)
  let c := 2 * atan2 (Real.sqrt a) (Real.sqrt (1 - a))
  R * c

/-- The first parsing pass of `fetchRoadNetwork`: collect every point element
into the nodes map (later elements with the same id overwrite in place). -/
def parseNodes : List RawElement → List (String × Node ℝ) →
    List (String × Node ℝ)
  | [], m => m
  | .node id lat lon :: rest, m => parseNodes rest (mapSet m id ⟨id, lat, lon⟩)
  | .way _ :: rest, m => parseNodes rest m

/-- The `adjacency.get(k).push(e)` idiom of `fetchRoadNetwork` (preceded by
`if (!adjacency.has(k)) adjacency.set(k, [])`): append the edge to the list
bound to `k`, creating the binding at the end of the map when absent. -/
def pushEdge : List (String × List (Edge ℝ)) → String → Edge ℝ →
    List (String × List (Edge ℝ))
  | [], k, e => [(k, [e])]
  | (k', es) :: rest, k, e =>
    if k' = k then (k', es ++ [e]) :: rest else (k', es) :: pushEdge rest k e

/-- One iteration of the inner way loop of `fetchRoadNetwork`: when both ids
of a consecutive pair resolve in the nodes map, push the two directed edges
with weight `getDistance / speedMS` (seconds), otherwise leave the adjacency
unchanged. -/
noncomputable def wayStep (nodes : List (String × Node ℝ)) (sp : ℝ)
    (u v : String) (adj : List (String × List (Edge ℝ))) :
    List (String × List (Edge ℝ)) :=
  match nodes.lookup u, nodes.lookup v with
  | some un, some vn =>
    let w := getDistance un.lat un.lon vn.lat vn.lon / sp
    pushEdge (pushEdge adj u ⟨u, v, w⟩) v ⟨v, u, w⟩
  | _, _ => adj

/-- The inner `for (let i = 0; i < el.nodes.length - 1; i++)` loop of
`fetchRoadNetwork`: one `wayStep` per consecutive id pair of the way. -/
noncomputable def addWayEdges (nodes : List (String × Node ℝ)) (sp : ℝ) :
    List String → List (String × List (Edge ℝ)) →
      List (String × List (Edge ℝ))
  | u :: v :: rest, adj => addWayEdges nodes sp (v :: rest) (wayStep nodes sp u v adj)
  | _, adj => adj

/-- The second parsing pass of `fetchRoadNetwork`: process every way element
in order, accumulating the adjacency map. -/
noncomputable def buildAdjacency (nodes : List (String × Node ℝ)) (sp : ℝ) :
    List RawElement → List (String × List (Edge ℝ)) →
      List (String × List (Edge ℝ))
  | [], adj => adj
  | .way ids :: rest, adj => buildAdjacency nodes sp rest (addWayEdges nodes sp ids adj)
  | .node _ _ _ :: rest, adj => buildAdjacency nodes sp rest adj

/-- The graph-building portion of `fetchRoadNetwork` (everything after the
HTTP response is parsed; the Overpass transport itself is an external
collaborator): first pass collects the nodes, then
`speedMS = TRANSPORT_SPEEDS[mode] * 1000 / 3600` and the second pass builds
the bidirectional adjacency. -/
noncomputable def fetchRoadNetwork (elements : List RawElement)
    (mode : TransportMode) : GraphData ℝ :=
  let nodes := parseNodes elements []
  let speedMS : ℝ := (TRANSPORT_SPEEDS mode : ℝ) * 1000 / 3600
  ⟨nodes, buildAdjacency nodes speedMS elements []⟩

/-- Source `types.ts` `IsochroneParams` (minutes as a positive count). -/
structure IsochroneParams where
  lat : ℝ
  lng : ℝ
  mode : TransportMode
  minutes : ℕ

/-- Source `types.ts` `IsochroneResult`: the hull polygon together with a copy of
the parameters. -/
structure IsochroneResult where
  polygon : List (ℝ × ℝ)
  params : IsochroneParams

/-- The `speedMS` line of the orchestrator `calculateIsochrone` (exact
rational arithmetic): `(TRANSPORT_SPEEDS[mode] * 1000) / 3600` in m/s. -/
def speedMS (mode : TransportMode) : ℚ :=
  (TRANSPORT_SPEEDS mode : ℚ) * 1000 / 3600

/-- The `radius` line of the orchestrator `calculateIsochrone`:
`speedMS * (minutes * 60) * 1.5` meters (padding factor 1.5; the source
applies no rounding). -/
def radiusMeters (mode : TransportMode) (minutes : ℕ) : ℚ :=
  speedMS mode * ((minutes : ℚ) * 60) * 1.5

/-- The post-fetch pipeline of the orchestrator `calculateIsochrone`: run the
search with budget `minutes * 60` seconds over the fetched graph, generate
the hull, and produce an `IsochroneResult` binding the polygon to the params
exactly when the hull is non-null (otherwise no result is appended). -/
noncomputable def calculateIsochrone (g : GraphData ℝ) (p : IsochroneParams) (fuel : ℕ) :
    Option IsochroneResult :=
  let nodes := calculateDijkstra g p.lat p.lng ((p.minutes : ℝ) * 60) fuel
  match generateHull nodes ((p.minutes : ℝ) * 60) with
  | some hull => some ⟨hull, p⟩
  | none => none

/-- The synthetic 5-node line graph of spec Scenario A: nodes `1`–`5` on a
line, four bidirectional edges of 300 seconds each (integer coordinates and
weights, so every arithmetic step of the search is exact). -/
def exLine : GraphData ℤ :=
  ⟨[("1", ⟨"1", 0, 0⟩), ("2", ⟨"2", 0, 1⟩), ("3", ⟨"3", 0, 2⟩),
    ("4", ⟨"4", 0, 3⟩), ("5", ⟨"5", 0, 4⟩)],
   [("1", [⟨"1", "2", 300⟩]),
    ("2", [⟨"2", "1", 300⟩, ⟨"2", "3", 300⟩]),
    ("3", [⟨"3", "2", 300⟩, ⟨"3", "4", 300⟩]),
    ("4", [⟨"4", "3", 300⟩, ⟨"4", "5", 300⟩]),
    ("5", [⟨"5", "4", 300⟩])]⟩

/-- A 3-node graph on which the missing finalized-node set shows: edges
`A–B` of weight 1, `A–C` of weight 3 and `B–C` of weight 1 (all
bidirectional), origin at `A`.  `C` is first enqueued at distance 3, then
relaxed to distance 2 before its first pop, leaving two live queue entries
for `C`. -/
def exTri : GraphData ℤ :=
  ⟨[("A", ⟨"A", 0, 0⟩), ("B", ⟨"B", 0, 1⟩), ("C", ⟨"C", 0, 2⟩)],
   [("A", [⟨"A", "B", 1⟩, ⟨"A", "C", 3⟩]),
    ("B", [⟨"B", "A", 1⟩, ⟨"B", "C", 1⟩]),
    ("C", [⟨"C", "A", 3⟩, ⟨"C", "B", 1⟩])]⟩

/-- A 2-node graph with a single bidirectional edge of weight 10, used with
budget `maxSeconds = 5`: relaxing the start node enqueues candidate distance
10 > 5. -/
def exPair : GraphData ℤ :=
  ⟨[("A", ⟨"A", 0, 0⟩), ("B", ⟨"B", 0, 1⟩)],
   [("A", [⟨"A", "B", 10⟩]), ("B", [⟨"B", "A", 10⟩])]⟩

/-- C1: the claim says `calculateDijkstra` never finalizes the same node
twice, so the number of queue pops is at most the number of graph nodes.
The code has no finalized/visited set, and on `exTri` (3 nodes, origin `A`,
budget 100) the run pops node `C` twice — once at the relaxed distance 2 and
once at the stale queue entry of distance 3 — appending `C` twice to the
returned list and re-relaxing its neighbors, for 4 pops over 3 nodes.  This
evaluates the embedded code at that failing input. -/
theorem c1_duplicate_finalization :
    exTri.nodes.length = 3 ∧
      calculateDijkstra exTri 0 0 100 10 =
        [⟨"A", 0, 0⟩, ⟨"B", 0, 1⟩, ⟨"C", 0, 2⟩, ⟨"C", 0, 2⟩] ∧
      (calculateDijkstra exTri 0 0 100 10).count ⟨"C", 0, 2⟩ = 2 := by
  decide

/-- C2: the claim says a candidate distance exceeding `maxSeconds` is never
inserted into the priority queue (pruning at the edge-relaxation step).  The
code has no relaxation-time bound check — it prunes only after popping — and
on `exPair` with budget 5 the very first iteration inserts the entry
`(10, "B")` with `10 > 5` into the queue.  This evaluates the embedded loop
at that failing input: the start node resolves to `A`, and after one
iteration from the initial state the queue holds an over-budget entry. -/
theorem c2_overbudget_enqueued :
    findStartNode exPair.nodes 0 0 = some "A" ∧
      (dijkstraLoop exPair 5 1 ⟨[(0, "A")], [("A", 0)], []⟩).pq = [(10, "B")] ∧
      ¬ ((10 : ℤ) ≤ 5) := by
  decide

/-- C3 counterexample: the claim says the search over the 5-node line graph
with budget `15 * 60 = 900` returns exactly the first 3 nodes.  It does not:
node `4` is reached at cumulative time exactly 900, the pop guard
`d > maxTimeSeconds` does not exclude it, and it is in the returned list,
which therefore differs from the first 3 nodes. -/
theorem c3_counterexample :
    (⟨"4", 0, 3⟩ : Node ℤ) ∈ calculateDijkstra exLine 0 0 (15 * 60) 10 ∧
      (⟨"4", 0, 3⟩ : Node ℤ) ∉
        [(⟨"1", 0, 0⟩ : Node ℤ), ⟨"2", 0, 1⟩, ⟨"3", 0, 2⟩] ∧
      calculateDijkstra exLine 0 0 (15 * 60) 10 ≠
        [⟨"1", 0, 0⟩, ⟨"2", 0, 1⟩, ⟨"3", 0, 2⟩] := by
  decide

/-- C3 amended: over the 5-node line graph with 300-second edges and budget
`15 * 60 = 900` seconds, the search from the first node returns exactly the
first 4 nodes of the line (cumulative times 0, 300, 600 and 900; the node at
exactly the budget is included because the guard excludes only strictly
greater times), and only the 5th node (1200 seconds) is excluded.  The run
is complete: the start node resolves to node `1` and the queue is exhausted
within the given fuel. -/
theorem c3_amended :
    findStartNode exLine.nodes 0 0 = some "1" ∧
      calculateDijkstra exLine 0 0 (15 * 60) 10 =
        [⟨"1", 0, 0⟩, ⟨"2", 0, 1⟩, ⟨"3", 0, 2⟩, ⟨"4", 0, 3⟩] ∧
      (⟨"5", 0, 4⟩ : Node ℤ) ∉ calculateDijkstra exLine 0 0 (15 * 60) 10 ∧
      (dijkstraLoop exLine (15 * 60) 10 ⟨[(0, "1")], [("1", 0)], []⟩).pq = [] := by
  decide

/-- C9 counterexample: the claim says the fetch radius for `minutes = 10`,
`mode = driving` is `9999.9` (from the rounded display value
`speed_mps = 11.11`).  The code computes `(40 * 1000 / 3600) * 600 * 1.5`
in full precision, which is exactly `10000`, not `9999.9`. -/
theorem c9_counterexample :
    radiusMeters TransportMode.driving 10 ≠ 9999.9 := by
  norm_num [radiusMeters, speedMS, TRANSPORT_SPEEDS]

/-- C9 amended: the orchestrator computes the fetch radius as
`speed_mps * (minutes * 60) * 1.5` with
`speed_mps = TRANSPORT_SPEEDS[mode] * 1000 / 3600`; for `minutes = 10`,
`mode = driving` (40 km/h) this is exactly `(100/9) * 600 * 1.5 = 10000`
meters, and the source applies no rounding step. -/
theorem c9_amended :
    speedMS TransportMode.driving = 100 / 9 ∧
      radiusMeters TransportMode.driving 10 = 10000 := by
  constructor <;> norm_num [radiusMeters, speedMS, TRANSPORT_SPEEDS]

/-- A triple in which two positions carry the same point is collinear. -/
theorem cross_eq_zero_of_repeat {p q r : α × α}
    (h : p = q ∨ p = r ∨ q = r) : cross p q r = 0 := by
  rcases h with h | h | h <;> subst h
  · simp [cross]
  · simp [cross]
  · simp only [cross]
    ring

/-- A list with fewer than 3 distinct elements has every triple collinear:
any three of its points repeat a value, and a repeated value makes the cross
product vanish. -/
theorem allCollinear_of_dedup_lt3 {ps : List (α × α)}
    (h : ps.dedup.length < 3) : allCollinear ps = true := by
  rw [allCollinear]
  simp only [List.all_eq_true, decide_eq_true_eq]
  intro p hp q hq r hr
  apply cross_eq_zero_of_repeat
  by_contra hc
  push_neg at hc
  obtain ⟨hpq, hpr, hqr⟩ := hc
  have hsub : ({p, q, r} : Finset (α × α)) ⊆ ps.toFinset := by
    intro x hx
    simp only [Finset.mem_insert, Finset.mem_singleton] at hx
    rcases hx with rfl | rfl | rfl <;> simpa [List.mem_toFinset]
  have hcard : ({p, q, r} : Finset (α × α)).card = 3 := by
    rw [Finset.card_insert_of_not_mem (by simp [hpq, hpr]),
      Finset.card_pair hqr]
  have := Finset.card_le_card hsub
  rw [hcard, List.card_toFinset] at this
  omega

/-- C4: for every input node sequence whose mapped `[lon, lat]` points have
fewer than 3 distinct values — covering both sequences of fewer than 3
entries and longer sequences coinciding at fewer than 3 coordinates —
`generateHull` returns `null`: short inputs hit the `length < 3` guard, and
degenerate longer inputs make both the concave hull and the convex fallback
yield nothing. -/
theorem c4_hull_null_of_lt3_distinct (nodes : List (Node α)) (t : α)
    (h : ((nodes.map fun n => (n.lon, n.lat)).dedup).length < 3) :
    generateHull nodes t = none := by
  rw [generateHull]
  by_cases hlen : nodes.length < 3
  · rw [if_pos hlen]
  · rw [if_neg hlen]
    have hcol := allCollinear_of_dedup_lt3 h
    simp only [turfConcave, turfConvex, hcol, if_true]

/-- C4 witness: three coincident integer points form a concrete instance of
the hypothesis, and the hull is `null` there. -/
theorem c4_witness :
    ((([⟨"a", 0, 0⟩, ⟨"a", 0, 0⟩, ⟨"a", 0, 0⟩] : List (Node ℤ)).map
        fun n => (n.lon, n.lat)).dedup).length < 3 ∧
      generateHull ([⟨"a", 0, 0⟩, ⟨"a", 0, 0⟩, ⟨"a", 0, 0⟩] : List (Node ℤ))
        0 = none :=
  ⟨by decide,
    c4_hull_null_of_lt3_distinct
      ([⟨"a", 0, 0⟩, ⟨"a", 0, 0⟩, ⟨"a", 0, 0⟩] : List (Node ℤ)) 0 (by decide)⟩

/-- C10: `generateHull` ignores its second (`maxTimeSeconds`) argument — the
concavity is the fixed constant `maxEdge = 0.1` — so the hull output is the
same for any two values of that argument. -/
theorem c10_hull_param_independent (nodes : List (Node α)) (t1 t2 : α) :
    generateHull nodes t1 = generateHull nodes t2 :=
  rfl

/-- C8: when the collaborator yields an empty raw-element list the pipeline
degrades end to end: the graph builder returns a graph with zero nodes, the
search over it returns the empty reachable list for every origin, budget and
fuel, the hull generator on an empty node list returns `null`, and the
orchestrator produces no `IsochroneResult`. -/
theorem c8_empty_pipeline (mode : TransportMode) :
    (fetchRoadNetwork [] mode).nodes = [] ∧
      (∀ (slat slng maxT : ℝ) (fuel : ℕ),
        calculateDijkstra (fetchRoadNetwork [] mode) slat slng maxT fuel = []) ∧
      (∀ t : ℝ, generateHull ([] : List (Node ℝ)) t = none) ∧
      (∀ (p : IsochroneParams) (fuel : ℕ),
        calculateIsochrone (fetchRoadNetwork [] mode) p fuel = none) :=
  ⟨rfl, fun _ _ _ _ => rfl, fun _ => rfl, fun _ _ => rfl⟩

/-- Predicate `WalkLen g s v d`: some walk in the graph leads from `s` to `v` with
total edge weight `d`, following edges exactly the way the search does (an
edge found in the adjacency list of the node being expanded leads to its
`target`). -/
inductive WalkLen (g : GraphData α) (s : String) : String → α → Prop where
  | nil : WalkLen g s s 0
  | cons {u : String} {d : α} {e : Edge α} :
      WalkLen g s u d → e ∈ (g.adjacency.lookup u).getD [] →
      WalkLen g s e.target (d + e.weight)

/-- Value `D` is the shortest-path travel time from `s` to `v`: it is the weight
of some walk and a lower bound of every walk weight. -/
def IsShortestDist (g : GraphData α) (s v : String) (D : α) : Prop :=
  WalkLen g s v D ∧ ∀ d, WalkLen g s v d → D ≤ d

/-- With non-negative edge weights every walk weight is non-negative. -/
theorem walkLen_nonneg {g : GraphData α} {s : String}
    (hw : ∀ p ∈ g.adjacency, ∀ e ∈ p.2, 0 ≤ e.weight)
    {v : String} {d : α} (h : WalkLen g s v d) : 0 ≤ d := by
  induction h with
  | nil => exact le_refl 0
  | cons _ he ih =>
    rename_i u d' e _
    have hew : 0 ≤ e.weight := by
      cases hl : g.adjacency.lookup u with
      | none => rw [hl] at he; cases he
      | some es =>
        rw [hl] at he
        exact hw (u, es) (lookup_mem hl) e he
    exact add_nonneg ih hew

/-- Every queue entry produced by the relaxation loop is a realizable walk
weight: relaxing from a node popped at walk weight `d` pushes only entries
`(d + e.weight, e.target)` along adjacency edges. -/
theorem relaxAll_pq_walk {g : GraphData α} {s0 u : String} {d : α}
    (hu : WalkLen g s0 u d) :
    ∀ (nbrs : List (Edge α)) (dist : List (String × α))
      (pq : List (α × String)),
      (∀ e ∈ nbrs, e ∈ (g.adjacency.lookup u).getD []) →
      (∀ p ∈ pq, WalkLen g s0 p.2 p.1) →
      ∀ p ∈ (relaxAll d nbrs dist pq).2, WalkLen g s0 p.2 p.1 := by
  intro nbrs
  induction nbrs with
  | nil => intro dist pq _ hpq; simpa [relaxAll] using hpq
  | cons e rest ih =>
    intro dist pq hn hpq
    have hrest : ∀ e' ∈ rest, e' ∈ (g.adjacency.lookup u).getD [] :=
      fun e' he' => hn e' (List.mem_cons_of_mem _ he')
    have hpush : ∀ p ∈ pq ++ [(d + e.weight, e.target)],
        WalkLen g s0 p.2 p.1 := by
      intro p hp
      rcases List.mem_append.mp hp with hp | hp
      · exact hpq p hp
      · rcases List.mem_singleton.mp hp with rfl
        exact WalkLen.cons hu (hn e (List.mem_cons_self e rest))
    rw [relaxAll]
    cases hl : dist.lookup e.target with
    | none => exact ih _ _ hrest hpush
    | some cur =>
      dsimp only
      by_cases hlt : d + e.weight < cur
      · rw [if_pos hlt]; exact ih _ _ hrest hpush
      · rw [if_neg hlt]; exact ih _ _ hrest hpq

/-- Loop invariant of the search: when every queue entry is a realizable
walk weight and every already-reached node was looked up at some walk weight
within the budget, the same holds of every node in the final reachable
list.  A node is appended only in the non-skipping branch, whose popped
entry satisfies `d ≤ maxT`. -/
theorem dijkstraLoop_reachable {g : GraphData α} {maxT : α} {s0 : String} :
    ∀ (fuel : ℕ) (s : DState α),
      (∀ p ∈ s.pq, WalkLen g s0 p.2 p.1) →
      (∀ n ∈ s.reachable, ∃ id, g.nodes.lookup id = some n ∧
        ∃ d, d ≤ maxT ∧ WalkLen g s0 id d) →
      ∀ n ∈ (dijkstraLoop g maxT fuel s).reachable,
        ∃ id, g.nodes.lookup id = some n ∧
          ∃ d, d ≤ maxT ∧ WalkLen g s0 id d := by
  intro fuel
  induction fuel with
  | zero => intro s _ hr; simpa [dijkstraLoop] using hr
  | succ fuel ih =>
    intro s hpq hr
    cases hsort : sortPQ s.pq with
    | nil => rw [dijkstraLoop, hsort]; exact hr
    | cons hd rest =>
      obtain ⟨d, u⟩ := hd
      have hdu : WalkLen g s0 u d := by
        have : ((d, u) : α × String) ∈ sortPQ s.pq := by
          rw [hsort]; exact List.mem_cons_self _ _
        exact hpq _ (mem_sortPQ.mp this)
      have hrest : ∀ p ∈ rest, WalkLen g s0 p.2 p.1 := by
        intro p hp
        have : p ∈ sortPQ s.pq := by
          rw [hsort]; exact List.mem_cons_of_mem _ hp
        exact hpq _ (mem_sortPQ.mp this)
      rw [dijkstraLoop, hsort]
      dsimp only
      by_cases hle : maxT < d
      · rw [if_pos hle]
        exact ih ⟨rest, s.dist, s.reachable⟩ hrest hr
      · rw [if_neg hle]
        apply ih
        · exact relaxAll_pq_walk hdu _ _ _ (fun e he => he) hrest
        · cases hlu : g.nodes.lookup u with
          | none => simpa [hlu] using hr
          | some n0 =>
            simp only [hlu]
            intro n hn
            rcases List.mem_append.mp hn with hn | hn
            · exact hr n hn
            · rcases List.mem_singleton.mp hn with rfl
              exact ⟨u, hlu, d, not_lt.mp hle, hdu⟩

/-- C5: every node in the list returned by `calculateDijkstra` was appended
when popped at a cumulative travel time `d ≤ maxSeconds` (the guard skips
strictly larger pops), that `d` is the weight of an actual walk from the
resolved start node, with non-negative edge weights it satisfies `0 ≤ d`,
and consequently the shortest-path travel time from the start node to the
node is at most `maxSeconds`. -/
theorem c5_reachable_within_budget (g : GraphData α) (slat slng maxT : α)
    (fuel : ℕ)
    (hw : ∀ p ∈ g.adjacency, ∀ e ∈ p.2, 0 ≤ e.weight)
    (n : Node α) (hn : n ∈ calculateDijkstra g slat slng maxT fuel) :
    ∃ s0, findStartNode g.nodes slat slng = some s0 ∧
      ∃ id, g.nodes.lookup id = some n ∧
        ∃ d, 0 ≤ d ∧ d ≤ maxT ∧ WalkLen g s0 id d ∧
          ∀ D, IsShortestDist g s0 id D → D ≤ maxT := by
  rw [calculateDijkstra] at hn
  cases hs : findStartNode g.nodes slat slng with
  | none => rw [hs] at hn; cases hn
  | some s0 =>
    rw [hs] at hn
    refine ⟨s0, rfl, ?_⟩
    have hinit : ∀ p ∈ ([((0 : α), s0)] : List (α × String)),
        WalkLen g s0 p.2 p.1 := by
      intro p hp
      rcases List.mem_singleton.mp hp with rfl
      exact WalkLen.nil
    obtain ⟨id, hid, d, hdle, hwalk⟩ :=
      dijkstraLoop_reachable fuel ⟨[(0, s0)], [(s0, 0)], []⟩ hinit
        (by intro n hn; cases hn) n hn
    exact ⟨id, hid, d, walkLen_nonneg hw hwalk, hdle, hwalk,
      fun D hD => le_trans (hD.2 d hwalk) hdle⟩

/-- C5 witness: on the concrete 5-node line graph all weights are
non-negative, node `2` is in the returned list, and the theorem yields its
in-budget walk and shortest-distance bound. -/
theorem c5_witness :
    (∀ p ∈ exLine.adjacency, ∀ e ∈ p.2, (0 : ℤ) ≤ e.weight) ∧
      (⟨"2", 0, 1⟩ : Node ℤ) ∈ calculateDijkstra exLine 0 0 (15 * 60) 10 ∧
      (∃ s0, findStartNode exLine.nodes 0 0 = some s0 ∧
        ∃ id, exLine.nodes.lookup id = some ⟨"2", 0, 1⟩ ∧
          ∃ d, 0 ≤ d ∧ d ≤ 15 * 60 ∧ WalkLen exLine s0 id d ∧
            ∀ D, IsShortestDist exLine s0 id D → D ≤ 15 * 60) :=
  ⟨by decide, by decide,
    c5_reachable_within_budget exLine 0 0 (15 * 60) 10 (by decide) _ (by decide)⟩

theorem lookup_pushEdge_self (adj : List (String × List (Edge ℝ)))
    (k : String) (e : Edge ℝ) :
    (pushEdge adj k e).lookup k = some (((adj.lookup k).getD []) ++ [e]) := by
  induction adj with
  | nil => simp [pushEdge, List.lookup]
  | cons p rest ih =>
    obtain ⟨k', es⟩ := p
    rw [pushEdge]
    by_cases h : k' = k
    · subst h; simp [List.lookup]
    · rw [if_neg h]
      have hbeq : (k == k') = false := beq_eq_false_iff_ne.mpr (Ne.symm h)
      simp only [List.lookup, hbeq, ih]

theorem lookup_pushEdge_ne (adj : List (String × List (Edge ℝ)))
    (k : String) (e : Edge ℝ) (k' : String) (h : k' ≠ k) :
    (pushEdge adj k e).lookup k' = adj.lookup k' := by
  induction adj with
  | nil =>
    have hbeq : (k' == k) = false := beq_eq_false_iff_ne.mpr h
    simp [pushEdge, List.lookup, hbeq]
  | cons p rest ih =>
    obtain ⟨k0, es⟩ := p
    rw [pushEdge]
    by_cases h0 : k0 = k
    · subst h0
      have hbeq : (k' == k0) = false := beq_eq_false_iff_ne.mpr h
      simp [List.lookup, hbeq]
    · rw [if_neg h0]
      simp only [List.lookup, ih]

/-- Membership in an adjacency list after a push: either the pushed edge at
the pushed key, or a previous member at the same key. -/
theorem mem_pushEdge_getD (adj : List (String × List (Edge ℝ)))
    (k0 : String) (e0 : Edge ℝ) (k : String) (e : Edge ℝ) :
    e ∈ ((pushEdge adj k0 e0).lookup k).getD [] ↔
      (k = k0 ∧ e = e0) ∨ e ∈ ((adj.lookup k).getD []) := by
  by_cases h : k = k0
  · subst h
    rw [lookup_pushEdge_self]
    simp
    tauto
  · rw [lookup_pushEdge_ne _ _ _ _ h]
    simp [h]

theorem mem_wayStep_preserve (nodes : List (String × Node ℝ)) (sp : ℝ)
    (u v : String) (adj : List (String × List (Edge ℝ))) (k : String)
    (e : Edge ℝ) (h : e ∈ ((adj.lookup k).getD [])) :
    e ∈ (((wayStep nodes sp u v adj).lookup k).getD []) := by
  rw [wayStep]
  cases nodes.lookup u <;> cases nodes.lookup v <;> dsimp only <;>
    first
      | exact h
      | (rw [mem_pushEdge_getD, mem_pushEdge_getD]; tauto)

theorem mem_addWayEdges_preserve (nodes : List (String × Node ℝ)) (sp : ℝ) :
    ∀ (ids : List String) (adj : List (String × List (Edge ℝ)))
      (k : String) (e : Edge ℝ), e ∈ ((adj.lookup k).getD []) →
      e ∈ (((addWayEdges nodes sp ids adj).lookup k).getD []) := by
  intro ids
  induction ids with
  | nil => intro adj k e h; simpa [addWayEdges] using h
  | cons u tail ih =>
    intro adj k e h
    cases tail with
    | nil => simpa [addWayEdges] using h
    | cons v rest =>
      rw [addWayEdges]
      exact ih _ _ _ (mem_wayStep_preserve nodes sp u v adj k e h)

/-- Processing a way whose id sequence contains the consecutive pair
`u, v`, both resolving in the nodes map, lands both directed edges (with
the haversine-over-speed weight) in the adjacency. -/
theorem addWayEdges_adds (nodes : List (String × Node ℝ)) (sp : ℝ)
    (u v : String) (un vn : Node ℝ)
    (hu : nodes.lookup u = some un) (hv : nodes.lookup v = some vn) :
    ∀ (pre post : List String) (adj : List (String × List (Edge ℝ))),
      (⟨u, v, getDistance un.lat un.lon vn.lat vn.lon / sp⟩ : Edge ℝ) ∈
        (((addWayEdges nodes sp (pre ++ u :: v :: post) adj).lookup u).getD []) ∧
      (⟨v, u, getDistance un.lat un.lon vn.lat vn.lon / sp⟩ : Edge ℝ) ∈
        (((addWayEdges nodes sp (pre ++ u :: v :: post) adj).lookup v).getD []) := by
  intro pre
  induction pre with
  | nil =>
    intro post adj
    rw [List.nil_append, addWayEdges]
    constructor <;> apply mem_addWayEdges_preserve <;>
      (rw [wayStep, hu, hv]; dsimp only;
        rw [mem_pushEdge_getD, mem_pushEdge_getD]; tauto)
  | cons p pre' ih =>
    intro post adj
    cases hq : pre' ++ u :: v :: post with
    | nil => exact absurd hq (by simp)
    | cons q tail' =>
      rw [List.cons_append, hq, addWayEdges, ← hq]
      exact ih post (wayStep nodes sp p q adj)

theorem mem_buildAdjacency_preserve (nodes : List (String × Node ℝ)) (sp : ℝ) :
    ∀ (els : List RawElement) (adj : List (String × List (Edge ℝ)))
      (k : String) (e : Edge ℝ), e ∈ ((adj.lookup k).getD []) →
      e ∈ (((buildAdjacency nodes sp els adj).lookup k).getD []) := by
  intro els
  induction els with
  | nil => intro adj k e h; simpa [buildAdjacency] using h
  | cons el rest ih =>
    intro adj k e h
    cases el with
    | node id lat lon => rw [buildAdjacency]; exact ih _ _ _ h
    | way ids =>
      rw [buildAdjacency]
      exact ih _ _ _ (mem_addWayEdges_preserve nodes sp ids adj k e h)

/-- Any way element of the processed list whose id sequence contains the
consecutive resolving pair `u, v` contributes both directed edges to the
final adjacency. -/
theorem buildAdjacency_way (nodes : List (String × Node ℝ)) (sp : ℝ)
    (ids : List String) (u v : String) (un vn : Node ℝ)
    (hu : nodes.lookup u = some un) (hv : nodes.lookup v = some vn)
    (pre post : List String) (hids : ids = pre ++ u :: v :: post) :
    ∀ (els : List RawElement) (adj : List (String × List (Edge ℝ))),
      RawElement.way ids ∈ els →
      (⟨u, v, getDistance un.lat un.lon vn.lat vn.lon / sp⟩ : Edge ℝ) ∈
        (((buildAdjacency nodes sp els adj).lookup u).getD []) ∧
      (⟨v, u, getDistance un.lat un.lon vn.lat vn.lon / sp⟩ : Edge ℝ) ∈
        (((buildAdjacency nodes sp els adj).lookup v).getD []) := by
  intro els
  induction els with
  | nil => intro adj h; cases h
  | cons el rest ih =>
    intro adj hmem
    rcases List.mem_cons.mp hmem with rfl | hmem'
    · rw [buildAdjacency]
      obtain ⟨h1, h2⟩ := addWayEdges_adds nodes sp u v un vn hu hv pre post adj
      rw [← hids] at h1 h2
      exact ⟨mem_buildAdjacency_preserve nodes sp rest _ _ _ h1,
        mem_buildAdjacency_preserve nodes sp rest _ _ _ h2⟩
    · clear hmem
      cases el with
      | node id lat lon => rw [buildAdjacency]; exact ih _ hmem'
      | way ids' => rw [buildAdjacency]; exact ih _ hmem'

/-- C6: for every raw element list and every way in it, each consecutive id
pair `u, v` that resolves to known point elements `un, vn` produces both
directed edges `u → v` and `v → u` in the graph built by
`fetchRoadNetwork`, each weighted by the haversine great-circle distance in
meters divided by the mode speed in m/s
(`TRANSPORT_SPEEDS[mode] * 1000 / 3600`). -/
theorem c6_way_edges_bidirectional (elements : List RawElement)
    (mode : TransportMode) (ids : List String)
    (hway : RawElement.way ids ∈ elements)
    (pre post : List String) (u v : String)
    (hids : ids = pre ++ u :: v :: post) (un vn : Node ℝ)
    (hu : (parseNodes elements []).lookup u = some un)
    (hv : (parseNodes elements []).lookup v = some vn) :
    (⟨u, v, getDistance un.lat un.lon vn.lat vn.lon /
        ((TRANSPORT_SPEEDS mode : ℝ) * 1000 / 3600)⟩ : Edge ℝ) ∈
      (((fetchRoadNetwork elements mode).adjacency.lookup u).getD []) ∧
    (⟨v, u, getDistance un.lat un.lon vn.lat vn.lon /
        ((TRANSPORT_SPEEDS mode : ℝ) * 1000 / 3600)⟩ : Edge ℝ) ∈
      (((fetchRoadNetwork elements mode).adjacency.lookup v).getD []) := by
  rw [fetchRoadNetwork]
  exact buildAdjacency_way (parseNodes elements [])
    ((TRANSPORT_SPEEDS mode : ℝ) * 1000 / 3600) ids u v un vn hu hv pre post
    hids elements [] hway

/-- A concrete two-point, one-way element list (both points at the origin)
used to witness the builder theorems. -/
def exElems : List RawElement :=
  [.node "a" 0 0, .node "b" 0 0, .way ["a", "b"]]

/-- C6 witness: on `exElems` (walking mode) the way `["a", "b"]` yields the
two directed edges between `a` and `b`, each with weight
`getDistance 0 0 0 0 / (5 * 1000 / 3600)`. -/
theorem c6_witness :
    RawElement.way ["a", "b"] ∈ exElems ∧
      (parseNodes exElems []).lookup "a" = some ⟨"a", 0, 0⟩ ∧
      (parseNodes exElems []).lookup "b" = some ⟨"b", 0, 0⟩ ∧
      (⟨"a", "b", getDistance 0 0 0 0 /
          ((TRANSPORT_SPEEDS TransportMode.walking : ℝ) * 1000 / 3600)⟩ : Edge ℝ) ∈
        (((fetchRoadNetwork exElems TransportMode.walking).adjacency.lookup
          "a").getD []) ∧
      (⟨"b", "a", getDistance 0 0 0 0 /
          ((TRANSPORT_SPEEDS TransportMode.walking : ℝ) * 1000 / 3600)⟩ : Edge ℝ) ∈
        (((fetchRoadNetwork exElems TransportMode.walking).adjacency.lookup
          "b").getD []) :=
  ⟨by simp [exElems], rfl, rfl,
    (c6_way_edges_bidirectional exElems TransportMode.walking ["a", "b"]
      (by simp [exElems]) [] [] "a" "b" rfl ⟨"a", 0, 0⟩ ⟨"b", 0, 0⟩ rfl rfl).1,
    (c6_way_edges_bidirectional exElems TransportMode.walking ["a", "b"]
      (by simp [exElems]) [] [] "a" "b" rfl ⟨"a", 0, 0⟩ ⟨"b", 0, 0⟩ rfl rfl).2⟩

/-- Function `Math.atan2` applied to a non-negative `y` lands in the upper closed
half-plane of angles, so it is non-negative. -/
theorem atan2_nonneg {y x : ℝ} (hy : 0 ≤ y) : 0 ≤ atan2 y x := by
  rw [atan2]
  exact Complex.arg_nonneg_iff.mpr hy

/-- The haversine distance is non-negative for every input: the half-angle
`c` is `2 * atan2(√a, √(1-a))` with a non-negative first argument, and the
radius is positive. -/
theorem getDistance_nonneg (lat1 lon1 lat2 lon2 : ℝ) :
    0 ≤ getDistance lat1 lon1 lat2 lon2 := by
  rw [getDistance]
  have hc : 0 ≤ 2 * atan2
      (Real.sqrt (Real.sin ((lat2 - lat1) * Real.pi / 180 / 2) *
          Real.sin ((lat2 - lat1) * Real.pi / 180 / 2) +
        Real.cos (lat1 * Real.pi / 180) * Real.cos (lat2 * Real.pi / 180) *
          Real.sin ((lon2 - lon1) * Real.pi / 180 / 2) *
          Real.sin ((lon2 - lon1) * Real.pi / 180 / 2)))
      (Real.sqrt (1 - (Real.sin ((lat2 - lat1) * Real.pi / 180 / 2) *
          Real.sin ((lat2 - lat1) * Real.pi / 180 / 2) +
        Real.cos (lat1 * Real.pi / 180) * Real.cos (lat2 * Real.pi / 180) *
          Real.sin ((lon2 - lon1) * Real.pi / 180 / 2) *
          Real.sin ((lon2 - lon1) * Real.pi / 180 / 2)))) := by
    have := atan2_nonneg (x := Real.sqrt (1 -
      (Real.sin ((lat2 - lat1) * Real.pi / 180 / 2) *
          Real.sin ((lat2 - lat1) * Real.pi / 180 / 2) +
        Real.cos (lat1 * Real.pi / 180) * Real.cos (lat2 * Real.pi / 180) *
          Real.sin ((lon2 - lon1) * Real.pi / 180 / 2) *
          Real.sin ((lon2 - lon1) * Real.pi / 180 / 2))))
      (Real.sqrt_nonneg (Real.sin ((lat2 - lat1) * Real.pi / 180 / 2) *
          Real.sin ((lat2 - lat1) * Real.pi / 180 / 2) +
        Real.cos (lat1 * Real.pi / 180) * Real.cos (lat2 * Real.pi / 180) *
          Real.sin ((lon2 - lon1) * Real.pi / 180 / 2) *
          Real.sin ((lon2 - lon1) * Real.pi / 180 / 2)))
    linarith
  have hR : (0 : ℝ) ≤ 6371e3 := by norm_num
  exact mul_nonneg hR hc

/-- The graph invariant of the built adjacency relative to a fixed nodes
map: every edge refers to resolvable source and target ids, has a
non-negative weight, and has a mirror edge with the same weight at its
target. -/
def AdjInv (nodes : List (String × Node ℝ))
    (adj : List (String × List (Edge ℝ))) : Prop :=
  ∀ k : String, ∀ e ∈ ((adj.lookup k).getD []),
    ((nodes.lookup e.source).isSome ∧ (nodes.lookup e.target).isSome ∧
      0 ≤ e.weight ∧
      ∃ e' ∈ ((adj.lookup e.target).getD []),
        e'.source = e.target ∧ e'.target = e.source ∧ e'.weight = e.weight)

/-- Pushing the two mirrored edges of a resolving pair preserves the graph
invariant. -/
theorem adjInv_wayStep (nodes : List (String × Node ℝ)) (sp : ℝ)
    (hsp : 0 ≤ sp) (u v : String) (adj : List (String × List (Edge ℝ)))
    (h : AdjInv nodes adj) : AdjInv nodes (wayStep nodes sp u v adj) := by
  rw [wayStep]
  cases hu : nodes.lookup u with
  | none => cases hv : nodes.lookup v <;> exact h
  | some un =>
    cases hv : nodes.lookup v with
    | none => exact h
    | some vn =>
      dsimp only
      intro k e he
      rw [mem_pushEdge_getD, mem_pushEdge_getD] at he
      have hw : 0 ≤ getDistance un.lat un.lon vn.lat vn.lon / sp :=
        div_nonneg (getDistance_nonneg un.lat un.lon vn.lat vn.lon) hsp
      rcases he with ⟨rfl, rfl⟩ | ⟨rfl, rfl⟩ | he
      · -- the mirror edge pushed second (key `v`, here substituted to `k`)
        refine ⟨by simp [hv], by simp [hu], hw,
          ⟨u, k, getDistance un.lat un.lon vn.lat vn.lon / sp⟩, ?_, rfl, rfl,
          rfl⟩
        rw [mem_pushEdge_getD, mem_pushEdge_getD]
        exact Or.inr (Or.inl ⟨rfl, rfl⟩)
      · -- the edge pushed first (key `u`, here substituted to `k`)
        refine ⟨by simp [hu], by simp [hv], hw,
          ⟨v, k, getDistance un.lat un.lon vn.lat vn.lon / sp⟩, ?_, rfl, rfl,
          rfl⟩
        rw [mem_pushEdge_getD]
        exact Or.inl ⟨rfl, rfl⟩
      · obtain ⟨hs, ht, hwe, e', he', h1, h2, h3⟩ := h k e he
        refine ⟨hs, ht, hwe, e', ?_, h1, h2, h3⟩
        rw [mem_pushEdge_getD, mem_pushEdge_getD]
        tauto

theorem adjInv_addWayEdges (nodes : List (String × Node ℝ)) (sp : ℝ)
    (hsp : 0 ≤ sp) :
    ∀ (ids : List String) (adj : List (String × List (Edge ℝ))),
      AdjInv nodes adj → AdjInv nodes (addWayEdges nodes sp ids adj) := by
  intro ids
  induction ids with
  | nil => intro adj h; simpa [addWayEdges] using h
  | cons u tail ih =>
    intro adj h
    cases tail with
    | nil => simpa [addWayEdges] using h
    | cons v rest =>
      rw [addWayEdges]
      exact ih _ (adjInv_wayStep nodes sp hsp u v adj h)

theorem adjInv_buildAdjacency (nodes : List (String × Node ℝ)) (sp : ℝ)
    (hsp : 0 ≤ sp) :
    ∀ (els : List RawElement) (adj : List (String × List (Edge ℝ))),
      AdjInv nodes adj → AdjInv nodes (buildAdjacency nodes sp els adj) := by
  intro els
  induction els with
  | nil => intro adj h; simpa [buildAdjacency] using h
  | cons el rest ih =>
    intro adj h
    cases el with
    | node id lat lon => rw [buildAdjacency]; exact ih _ h
    | way ids =>
      rw [buildAdjacency]
      exact ih _ (adjInv_addWayEdges nodes sp hsp ids adj h)

/-- C7: every graph returned by `fetchRoadNetwork` satisfies the graph
invariant — for every adjacency entry, the edge's source and target ids are
keys of the nodes mapping, its weight is non-negative, and a mirror edge
with swapped endpoints and the same weight is present at the target
(adjacency symmetry). -/
theorem c7_graph_invariant (elements : List RawElement)
    (mode : TransportMode) (k : String) (e : Edge ℝ)
    (he : e ∈ (((fetchRoadNetwork elements mode).adjacency.lookup k).getD [])) :
    ((fetchRoadNetwork elements mode).nodes.lookup e.source).isSome ∧
      ((fetchRoadNetwork elements mode).nodes.lookup e.target).isSome ∧
      0 ≤ e.weight ∧
      ∃ e' ∈ (((fetchRoadNetwork elements mode).adjacency.lookup
          e.target).getD []),
        e'.source = e.target ∧ e'.target = e.source ∧ e'.weight = e.weight := by
  have hsp : (0 : ℝ) ≤ (TRANSPORT_SPEEDS mode : ℝ) * 1000 / 3600 := by
    positivity
  have hbase : AdjInv (parseNodes elements [])
      ([] : List (String × List (Edge ℝ))) := by
    intro k' e' he'
    simp [List.lookup] at he'
  have := adjInv_buildAdjacency (parseNodes elements [])
    ((TRANSPORT_SPEEDS mode : ℝ) * 1000 / 3600) hsp elements [] hbase k e
  rw [fetchRoadNetwork] at he ⊢
  exact this he

/-- C7 witness: the invariant instantiated on the concrete element list
`exElems` at the edge `a → b` produced by its single way. -/
theorem c7_witness :
    (⟨"a", "b", getDistance 0 0 0 0 /
        ((TRANSPORT_SPEEDS TransportMode.walking : ℝ) * 1000 / 3600)⟩ : Edge ℝ) ∈
      (((fetchRoadNetwork exElems TransportMode.walking).adjacency.lookup
        "a").getD []) ∧
      (((fetchRoadNetwork exElems TransportMode.walking).nodes.lookup
        "a").isSome ∧
       ((fetchRoadNetwork exElems TransportMode.walking).nodes.lookup
        "b").isSome ∧
       0 ≤ getDistance 0 0 0 0 /
          ((TRANSPORT_SPEEDS TransportMode.walking : ℝ) * 1000 / 3600) ∧
       ∃ e' ∈ (((fetchRoadNetwork exElems TransportMode.walking).adjacency.lookup
          "b").getD []),
         e'.source = "b" ∧ e'.target = "a" ∧
           e'.weight = getDistance 0 0 0 0 /
             ((TRANSPORT_SPEEDS TransportMode.walking : ℝ) * 1000 / 3600)) := by
  have hmem :
      (⟨"a", "b", getDistance 0 0 0 0 /
          ((TRANSPORT_SPEEDS TransportMode.walking : ℝ) * 1000 / 3600)⟩ : Edge ℝ) ∈
        (((fetchRoadNetwork exElems TransportMode.walking).adjacency.lookup
          "a").getD []) :=
    (c6_way_edges_bidirectional exElems TransportMode.walking ["a", "b"]
      (by simp [exElems]) [] [] "a" "b" rfl ⟨"a", 0, 0⟩ ⟨"b", 0, 0⟩ rfl rfl).1
  exact ⟨hmem,
    c7_graph_invariant exElems TransportMode.walking "a" _ hmem⟩

end BST
